import Mathlib

/-!
Verification of the flanterm-rs wrapper (src/src/lib.rs): a safe Rust layer
around the opaque flanterm rendering engine.  The engine itself is external
C code reached through generated bindings; every call the wrapper makes into
the engine is modelled as an `EngineCall` event, and each wrapper operation
is a pure function returning the list of engine calls it performs, in order,
together with its result.  Machine strings passed to the engine are the
UTF-8 bytes of Rust strings, modelled as `List Nat` byte lists.
-/

/-- UTF-8 encoding of a single character, as byte values.  Mirrors the byte
sequence `str::as_bytes` exposes for that character. -/
def utf8EncodeChar (c : Char) : List Nat :=
  let n := c.toNat
  if n < 0x80 then [n]
  else if n < 0x800 then
    [0xC0 ||| (n >>> 6), 0x80 ||| (n &&& 0x3F)]
  else if n < 0x10000 then
    [0xE0 ||| (n >>> 12), 0x80 ||| ((n >>> 6) &&& 0x3F), 0x80 ||| (n &&& 0x3F)]
  else
    [0xF0 ||| (n >>> 18), 0x80 ||| ((n >>> 12) &&& 0x3F),
     0x80 ||| ((n >>> 6) &&& 0x3F), 0x80 ||| (n &&& 0x3F)]

/-- UTF-8 bytes of a string: the value of `s.as_bytes()` in the Rust source. -/
def strBytes (s : String) : List Nat :=
  s.data.flatMap utf8EncodeChar

/-- One call from the wrapper into the rendering engine.  The wrapper in
src/src/lib.rs reaches the engine only through `flanterm_write` (from
`write_bytes`) and `flanterm_deinit` (from `Drop`); the initialization call
`flanterm_fb_init` is modelled by passing its returned pointer into `new_fb`
as an input. -/
inductive EngineCall
  | write (ptr : Nat) (bytes : List Nat)
  | deinit (ptr : Nat)
deriving DecidableEq, Repr

/-- Concatenated payload of all `write` calls in a trace: the byte stream
the engine receives. -/
def writesPayload : List EngineCall → List Nat
  | [] => []
  | .write _ b :: rest => b ++ writesPayload rest
  | .deinit _ :: rest => writesPayload rest

/-- Number of `deinit` (engine teardown) calls in a trace. -/
def countDeinits : List EngineCall → Nat
  | [] => 0
  | .deinit _ :: rest => countDeinits rest + 1
  | .write _ _ :: rest => countDeinits rest

/-- The safe wrapper around the flanterm context (struct `FlantermContext`).
The single field is the raw `*mut flanterm_context` pointer, modelled as a
natural number with `0` for the null pointer. -/
structure FlantermContext where
  ctx : Nat
deriving DecidableEq, Repr

/-- Result of a `core::fmt` write operation (`fmt::Result`). -/
inductive FmtResult
  | ok
  | error
deriving DecidableEq, Repr

/-- Whether `Result::unwrap` on a `fmt::Result` panics: it panics exactly on
the error case. -/
def FmtResult.unwrapPanics : FmtResult → Bool
  | .ok => false
  | .error => true

/-- `FlantermContext::new_fb`: builds the engine initialization call from the
framebuffer descriptor and checks its result for null.  The pointer returned
by `flanterm_fb_init` is the environment input `initResult` (0 = null).
Returns `none` exactly when the engine reported failure, otherwise a handle
owning the returned pointer. -/
def FlantermContext.new_fb (_framebuffer _width _height _pitch : Nat)
    (_red_mask_size _red_mask_shift _green_mask_size _green_mask_shift
     _blue_mask_size _blue_mask_shift : Nat)
    (initResult : Nat) : Option FlantermContext :=
  if initResult = 0 then none else some ⟨initResult⟩

/-- `FlantermContext::write_bytes`: one `flanterm_write` call carrying the
byte buffer verbatim. -/
def FlantermContext.write_bytes (c : FlantermContext) (bytes : List Nat) :
    List EngineCall :=
  [.write c.ctx bytes]

/-- The `Write::write_str` impl for `FlantermContext`: forwards the UTF-8
bytes of the string through `write_bytes` and returns `Ok(())`. -/
def FlantermContext.write_str (c : FlantermContext) (s : String) :
    List EngineCall × FmtResult :=
  (c.write_bytes (strBytes s), .ok)

/-- The pieces of a `fmt::Arguments` value: the successive strings that
`core::fmt::write` passes to `write_str`, namely the literal fragments of
the format string interleaved with the rendered text of each interpolated
argument, in order.  The formatted text is their concatenation. -/
abbrev FmtArguments := List String

/-- Formatted text of a `fmt::Arguments`: the concatenation of its pieces. -/
def fmtText : FmtArguments → String
  | [] => ""
  | s :: rest => s ++ fmtText rest

/-- `Write::write_fmt` (provided method, via `core::fmt::write`): calls
`write_str` once per piece, stopping at the first error. -/
def FlantermContext.write_fmt (c : FlantermContext) (args : FmtArguments) :
    List EngineCall × FmtResult :=
  match args with
  | [] => ([], .ok)
  | s :: rest =>
    match c.write_str s with
    | (evs, .ok) =>
      let (evs2, r) := c.write_fmt rest
      (evs ++ evs2, r)
    | (evs, .error) => (evs, .error)

/-- `FlantermContext::clear`: writes the clear-screen plus cursor-home
sequence and unwraps the result.  Second component: whether the `unwrap`
panicked. -/
def FlantermContext.clear (c : FlantermContext) : List EngineCall × Bool :=
  let r := c.write_str "\x1b[2J\x1b[H"
  (r.1, r.2.unwrapPanics)

/-- Width of `usize` on the 64-bit freestanding target: values range over
`0 ≤ v < USIZE` and addition wraps modulo `USIZE`. -/
def USIZE : Nat := 2 ^ 64

/-- `FlantermContext::move_cursor`: `write!(self, "\x1b[{};{}H", y + 1, x + 1)`
with the result discarded.  The format pieces are the literal fragments
around the decimal renderings of `y + 1` and `x + 1` and the trailing `H`.
The `usize` additions wrap modulo `2 ^ 64` (release-build semantics; with
overflow checks enabled the addition at `usize::MAX` would instead panic,
and in neither build does it emit `2 ^ 64`). -/
def FlantermContext.move_cursor (c : FlantermContext) (x y : Nat) :
    List EngineCall :=
  (c.write_fmt ["\x1b[", toString ((y + 1) % USIZE), ";",
    toString ((x + 1) % USIZE), "H"]).1

/-- `FlantermContext::set_color`: foreground escape, then optionally the
background escape, via `write!` with the result discarded.  The `u8` colour
indices are modelled as naturals. -/
def FlantermContext.set_color (c : FlantermContext) (fg : Nat)
    (bg : Option Nat) : List EngineCall :=
  match bg with
  | some b =>
    (c.write_fmt ["\x1b[38;5;", toString fg, "m\x1b[48;5;", toString b, "m"]).1
  | none =>
    (c.write_fmt ["\x1b[38;5;", toString fg, "m"]).1

/-- `FlantermContext::reset_format`: writes the reset-attributes escape and
unwraps.  Second component: whether the `unwrap` panicked. -/
def FlantermContext.reset_format (c : FlantermContext) :
    List EngineCall × Bool :=
  let r := c.write_str "\x1b[0m"
  (r.1, r.2.unwrapPanics)

/-- The `Drop` impl for `FlantermContext`: calls `flanterm_deinit` on the
owned pointer if and only if it is non-null.  Rust runs `Drop` at most once
per value, so this trace is emitted at most once per handle. -/
def FlantermContext.drop (c : FlantermContext) : List EngineCall :=
  if c.ctx = 0 then [] else [.deinit c.ctx]

/-- The global registry state (struct `GlobalFlantermState`): a
`MaybeUninit<FlantermContext>` slot and an `initialized` flag.  The slot is
`none` while no handle has ever been written (uninitialized memory holds no
value); `MaybeUninit::write` replaces its content without running `Drop` on
any previous value. -/
structure GlobalFlantermState where
  ctx : Option FlantermContext
  initialized : Bool
deriving DecidableEq, Repr

/-- `GlobalFlantermState::new`, the initial value of the `GLOBAL_FLANTERM`
static: uninitialized slot, flag false. -/
def GlobalFlantermState.new : GlobalFlantermState :=
  { ctx := none, initialized := false }

/-- `init_global_flanterm`: under the lock, `state.ctx.write(ctx)` stores the
new handle without dropping any previous one (so no engine call happens
here), then sets the flag.  The lock makes the whole update one atomic step
of the state machine. -/
def init_global_flanterm (c : FlantermContext) (_s : GlobalFlantermState) :
    GlobalFlantermState :=
  { ctx := some c, initialized := true }

/-- `with_global_flanterm`: under the lock, checks the flag; if false,
returns `None` without invoking `f`; if true, invokes `f` on the stored
handle (through `assume_init_mut`) and returns `Some` of its result.  A
closure receiving `&mut FlantermContext` is modelled as a function returning
the updated handle together with its result.  Reading the slot when the
flag is true but no handle was ever written would be undefined behaviour in
the source; that state is proved unreachable (claim C3), and the model
returns `(s, none)` there. -/
def with_global_flanterm {R : Type} (f : FlantermContext → FlantermContext × R)
    (s : GlobalFlantermState) : GlobalFlantermState × Option R :=
  if s.initialized then
    match s.ctx with
    | some c =>
      let (c2, r) := f c
      ({ s with ctx := some c2 }, some r)
    | none => (s, none)
  else
    (s, none)

/-- `_print`: routes the format arguments through `with_global_flanterm`,
writing them with `write_fmt` and discarding the `fmt::Result`.  Returns the
updated registry state and the engine calls performed (empty when the
registry is uninitialized). -/
def _print (args : FmtArguments) (s : GlobalFlantermState) :
    GlobalFlantermState × List EngineCall :=
  match with_global_flanterm (fun c => (c, (c.write_fmt args).1)) s with
  | (s2, some evs) => (s2, evs)
  | (s2, none) => (s2, [])

/-- One operation on the global registry.  `install` and `doPrint` are the
public surface used by the claims; `withInstance` runs an arbitrary closure
(which may mutate the handle and emit engine calls) through
`with_global_flanterm`. -/
inductive GlobalOp
  | install (c : FlantermContext)
  | withInstance (g : FlantermContext → FlantermContext × List EngineCall)
  | doPrint (args : FmtArguments)

/-- Whether an operation is `install` or `doPrint` (the surface that emits
only the engine calls shown in src/src/lib.rs, with no foreign closure). -/
def GlobalOp.noClosure : GlobalOp → Prop
  | .install _ => True
  | .withInstance _ => False
  | .doPrint _ => True

/-- One step of the registry state machine: the new state and the engine
calls the step performs. -/
def stepTrace : GlobalOp → GlobalFlantermState → GlobalFlantermState × List EngineCall
  | .install c, s => (init_global_flanterm c s, [])
  | .withInstance g, s =>
    match with_global_flanterm g s with
    | (s2, some evs) => (s2, evs)
    | (s2, none) => (s2, [])
  | .doPrint args, s => _print args s

/-- Run a sequence of registry operations, accumulating the engine-call
trace in order. -/
def runTrace : List GlobalOp → GlobalFlantermState → GlobalFlantermState × List EngineCall
  | [], s => (s, [])
  | op :: rest, s =>
    let (s2, evs) := stepTrace op s
    let (s3, evs2) := runTrace rest s2
    (s3, evs ++ evs2)

/-- The registry consistency invariant: the flag is true exactly when a
handle is stored. -/
def registryConsistent (s : GlobalFlantermState) : Prop :=
  s.initialized = true ↔ s.ctx.isSome = true

theorem strBytes_append (a b : String) :
    strBytes (a ++ b) = strBytes a ++ strBytes b := by
  simp [strBytes, String.data_append]

theorem strBytes_fmtText (args : FmtArguments) :
    strBytes (fmtText args) = args.flatMap strBytes := by
  induction args with
  | nil => rfl
  | cons s rest ih => simp [fmtText, strBytes_append, ih]

theorem write_fmt_eq (c : FlantermContext) (args : FmtArguments) :
    c.write_fmt args =
      (args.map (fun p => EngineCall.write c.ctx (strBytes p)), FmtResult.ok) := by
  induction args with
  | nil => rfl
  | cons s rest ih =>
    simp [FlantermContext.write_fmt, FlantermContext.write_str,
      FlantermContext.write_bytes, ih]

theorem writesPayload_writeList (ptr : Nat) (l : List String) :
    writesPayload (l.map (fun p => EngineCall.write ptr (strBytes p))) =
      l.flatMap strBytes := by
  induction l with
  | nil => rfl
  | cons s rest ih => simp [writesPayload, ih]

theorem countDeinits_writeList (ptr : Nat) (l : List String) :
    countDeinits (l.map (fun p => EngineCall.write ptr (strBytes p))) = 0 := by
  induction l with
  | nil => rfl
  | cons s rest ih => simp [countDeinits, ih]

theorem countDeinits_append (a b : List EngineCall) :
    countDeinits (a ++ b) = countDeinits a + countDeinits b := by
  induction a with
  | nil => simp [countDeinits]
  | cons e rest ih =>
    cases e with
    | write ptr bytes => simp [countDeinits, ih]
    | deinit ptr => simp [countDeinits, ih]; omega

theorem writesPayload_write_fmt (c : FlantermContext) (args : FmtArguments) :
    writesPayload (c.write_fmt args).1 = strBytes (fmtText args) := by
  rw [write_fmt_eq]
  simp [writesPayload_writeList, strBytes_fmtText]

theorem stepTrace_consistent (op : GlobalOp) (s : GlobalFlantermState)
    (h : registryConsistent s) : registryConsistent (stepTrace op s).1 := by
  cases op with
  | install c => simp [stepTrace, init_global_flanterm, registryConsistent]
  | withInstance g =>
    simp only [stepTrace, with_global_flanterm]
    by_cases hi : s.initialized
    · cases hc : s.ctx with
      | none =>
        exfalso
        have := h.mp (by simpa using hi)
        simp [hc] at this
      | some c => simp [hi, hc, registryConsistent]
    · simp only [hi]
      simpa using h
  | doPrint args =>
    simp only [stepTrace, _print, with_global_flanterm]
    by_cases hi : s.initialized
    · cases hc : s.ctx with
      | none =>
        exfalso
        have := h.mp (by simpa using hi)
        simp [hc] at this
      | some c => simp [hi, hc, registryConsistent]
    · simp only [hi]
      simpa using h

theorem runTrace_consistent (ops : List GlobalOp) (s : GlobalFlantermState)
    (h : registryConsistent s) : registryConsistent (runTrace ops s).1 := by
  induction ops generalizing s with
  | nil => simpa [runTrace]
  | cons op rest ih =>
    simp only [runTrace]
    exact ih (stepTrace op s).1 (stepTrace_consistent op s h)

/-- C1: every sequence of print calls issued before the global registry has
been installed is a true no-op: starting from the initial registry state
(`init_global_flanterm` has never run), running any list of `_print` calls
delivers no engine call at all (no bytes reach the engine, nothing is
queued) and leaves the registry state unchanged, and every call returns
normally (`with_global_flanterm` finds the flag false and never invokes the
closure, and the print path contains no panicking operation). -/
theorem prints_before_install_noop (l : List FmtArguments) :
    runTrace (l.map GlobalOp.doPrint) GlobalFlantermState.new =
      (GlobalFlantermState.new, []) := by
  induction l with
  | nil => rfl
  | cons a rest ih =>
    have h1 : stepTrace (GlobalOp.doPrint a) GlobalFlantermState.new =
        (GlobalFlantermState.new, []) := rfl
    simp [runTrace, h1, ih]

/-- C2: `with_global_flanterm f` returns `none` without invoking `f` when
the initialized flag is false, and when the flag is true it applies `f`
exactly once to the stored handle, stores the updated handle back, and
returns `some` of the result of that single application. -/
theorem with_global_flanterm_spec {R : Type}
    (f : FlantermContext → FlantermContext × R) (s : GlobalFlantermState) :
    (s.initialized = false → with_global_flanterm f s = (s, none)) ∧
    (∀ c, s.initialized = true → s.ctx = some c →
      with_global_flanterm f s =
        ({ ctx := some (f c).1, initialized := true }, some (f c).2)) := by
  constructor
  · intro hf
    simp [with_global_flanterm, hf]
  · intro c hi hc
    cases s with
    | mk sctx sinit =>
      simp only at hi hc
      subst hi
      subst hc
      simp [with_global_flanterm]

theorem with_global_flanterm_spec_witness :
    with_global_flanterm (fun c => (c, c.ctx + 1)) GlobalFlantermState.new =
      (GlobalFlantermState.new, none) ∧
    with_global_flanterm (fun c => (c, c.ctx + 1))
        { ctx := some ⟨3⟩, initialized := true } =
      ({ ctx := some ⟨3⟩, initialized := true }, some 4) :=
  ⟨(with_global_flanterm_spec (fun c => (c, c.ctx + 1))
      GlobalFlantermState.new).1 rfl,
   (with_global_flanterm_spec (fun c => (c, c.ctx + 1))
      { ctx := some ⟨3⟩, initialized := true }).2 ⟨3⟩ rfl rfl⟩

/-- C3: the registry invariant (initialized flag true exactly when a handle
is stored) holds in every state reachable from the initial state by any
sequence of install, with-instance and print operations; moreover an
install step from any state, in particular a second install over an already
installed registry, atomically yields the consistent state holding the
newly installed handle, so no reachable state has the flag true with no
handle present. -/
theorem registry_invariant (ops : List GlobalOp) (c2 : FlantermContext)
    (s : GlobalFlantermState) :
    registryConsistent (runTrace ops GlobalFlantermState.new).1 ∧
    (stepTrace (GlobalOp.install c2) s).1 =
      { ctx := some c2, initialized := true } := by
  constructor
  · exact runTrace_consistent ops GlobalFlantermState.new
      (by simp [registryConsistent, GlobalFlantermState.new])
  · rfl

/-- C4 counterexample: a print call whose format arguments have more than
one piece (any interpolated format string, here the pieces of
`print!("x = {}", 42)`) performs two `flanterm_write` calls on the installed
engine, not exactly one, because `core::fmt::write` issues one `write_str`
per piece and each `write_str` is one `write_bytes` call. -/
theorem print_single_write_counterexample :
    ¬ ((_print ["x = ", "42"]
        { ctx := some ⟨1⟩, initialized := true }).2.length = 1) := by
  decide

/-- C4 amended: after install, a single print call leaves the registry state
unchanged and performs exactly one `write_bytes` call per piece of its
format arguments, each on the installed engine handle, in order; the
concatenation of the written payloads is exactly the UTF-8 byte
representation of the entire formatted text, and when the arguments consist
of a single piece (an uninterpolated format string) the call performs
exactly one `write_bytes` call carrying the whole formatted text. -/
theorem print_installed_spec (args : FmtArguments) (s : GlobalFlantermState)
    (c : FlantermContext) (hi : s.initialized = true) (hc : s.ctx = some c) :
    (_print args s).1 = s ∧
    (_print args s).2 =
      args.map (fun p => EngineCall.write c.ctx (strBytes p)) ∧
    writesPayload (_print args s).2 = strBytes (fmtText args) ∧
    (_print args s).2.length = args.length := by
  have hw := (with_global_flanterm_spec
      (fun c => (c, (c.write_fmt args).1)) s).2 c hi hc
  have hstate : ({ ctx := some c, initialized := true } : GlobalFlantermState)
      = s := by
    cases s with
    | mk sctx sinit =>
      simp only at hi hc
      subst hi
      subst hc
      rfl
  have hp : _print args s =
      (s, args.map (fun p => EngineCall.write c.ctx (strBytes p))) := by
    simp only [_print]
    rw [hw]
    simp [write_fmt_eq, hstate]
  refine ⟨?_, ?_, ?_, ?_⟩
  · rw [hp]
  · rw [hp]
  · simp [hp, writesPayload_writeList, strBytes_fmtText]
  · simp [hp]

theorem print_installed_spec_witness :
    ({ ctx := some (⟨2⟩ : FlantermContext), initialized := true }
        : GlobalFlantermState).initialized = true ∧
    (_print ["hi"] { ctx := some ⟨2⟩, initialized := true }).2 =
      [EngineCall.write 2 (strBytes "hi")] ∧
    (_print ["hi"] { ctx := some ⟨2⟩, initialized := true }).2.length = 1 :=
  ⟨rfl,
   by
    have h := print_installed_spec ["hi"]
      { ctx := some ⟨2⟩, initialized := true } ⟨2⟩ rfl rfl
    simpa [fmtText] using h.2.1,
   by
    have h := print_installed_spec ["hi"]
      { ctx := some ⟨2⟩, initialized := true } ⟨2⟩ rfl rfl
    simpa using h.2.2.2⟩

/-- C5 counterexample: at the concrete coordinate `y = usize::MAX`
(`2 ^ 64 - 1`), the wrapping `usize` increment makes
`move_cursor(0, usize::MAX)` emit `ESC[0;1H` — not an escape carrying the
decimal digits of `y + 1 = 2 ^ 64` as the claim requires for every
coordinate (with overflow checks enabled the addition would instead panic
and emit nothing). -/
theorem move_cursor_overflow_counterexample :
    writesPayload (FlantermContext.move_cursor ⟨1⟩ 0 (2 ^ 64 - 1)) =
      strBytes "\x1b[0;1H" ∧
    ¬ (writesPayload (FlantermContext.move_cursor ⟨1⟩ 0 (2 ^ 64 - 1)) =
        strBytes "\x1b[" ++ strBytes (toString ((2 ^ 64 - 1) + 1)) ++
          strBytes ";" ++ strBytes (toString (0 + 1)) ++ strBytes "H") := by
  constructor
  · decide
  · decide

/-- C5 amended: for all coordinates whose increments stay within `usize`
(`x + 1 < 2 ^ 64` and `y + 1 < 2 ^ 64`, that is, every coordinate except
`usize::MAX`, where the increment overflows), `move_cursor(x, y)` performs
one write per format piece and the byte stream it emits to the engine is
exactly ESC `[` followed by the decimal digits of `y + 1`, then `;`, then
the decimal digits of `x + 1`, then `H` — the 1-based ANSI cursor-position
escape obtained by adding 1 to each 0-based coordinate; in particular
`move_cursor(0, 0)` emits byte-for-byte `ESC[1;1H` and `move_cursor(4, 9)`
emits `ESC[10;5H`. -/
theorem move_cursor_spec (c : FlantermContext) (x y : Nat)
    (hx : x + 1 < USIZE) (hy : y + 1 < USIZE) :
    c.move_cursor x y =
      ["\x1b[", toString (y + 1), ";", toString (x + 1), "H"].map
        (fun p => EngineCall.write c.ctx (strBytes p)) ∧
    writesPayload (c.move_cursor x y) =
      strBytes "\x1b[" ++ strBytes (toString (y + 1)) ++ strBytes ";" ++
        strBytes (toString (x + 1)) ++ strBytes "H" ∧
    writesPayload (c.move_cursor 0 0) = [27, 91, 49, 59, 49, 72] ∧
    writesPayload (c.move_cursor 4 9) = [27, 91, 49, 48, 59, 53, 72] := by
  have hmx : (x + 1) % USIZE = x + 1 := Nat.mod_eq_of_lt hx
  have hmy : (y + 1) % USIZE = y + 1 := Nat.mod_eq_of_lt hy
  refine ⟨?_, ?_, ?_, ?_⟩
  · simp [FlantermContext.move_cursor, write_fmt_eq, hmx, hmy]
  · simp [FlantermContext.move_cursor, write_fmt_eq, writesPayload,
      List.append_assoc, hmx, hmy]
  · rfl
  · rfl

theorem move_cursor_spec_witness :
    (4 + 1 < USIZE) ∧ (9 + 1 < USIZE) ∧
    writesPayload (FlantermContext.move_cursor ⟨1⟩ 4 9) =
      [27, 91, 49, 48, 59, 53, 72] :=
  ⟨by decide, by decide,
   (move_cursor_spec ⟨1⟩ 4 9 (by decide) (by decide)).2.2.2⟩

/-- C6: with no background, `set_color(fg, None)` emits exactly the single
foreground escape ESC `[38;5;` fg `m` — its whole emission is that escape,
so no background escape of any kind is written — and `set_color(fg, Some(bg))`
emits exactly the foreground escape immediately followed by the background
escape ESC `[48;5;` bg `m`; in particular `set_color(7, None)` emits exactly
`ESC[38;5;7m` and `set_color(7, Some(0))` emits `ESC[38;5;7mESC[48;5;0m`. -/
theorem set_color_spec (c : FlantermContext) (fg bg : Nat) :
    writesPayload (c.set_color fg none) =
      strBytes "\x1b[38;5;" ++ strBytes (toString fg) ++ strBytes "m" ∧
    writesPayload (c.set_color fg (some bg)) =
      strBytes "\x1b[38;5;" ++ strBytes (toString fg) ++
        strBytes "m\x1b[48;5;" ++ strBytes (toString bg) ++ strBytes "m" ∧
    writesPayload (c.set_color 7 none) = strBytes "\x1b[38;5;7m" ∧
    writesPayload (c.set_color 7 (some 0)) =
      strBytes "\x1b[38;5;7m\x1b[48;5;0m" := by
  refine ⟨?_, ?_, ?_, ?_⟩
  · simp [FlantermContext.set_color, write_fmt_eq, writesPayload,
      List.append_assoc]
  · simp [FlantermContext.set_color, write_fmt_eq, writesPayload,
      List.append_assoc]
  · rfl
  · rfl

/-- C7: `new_fb` returns `none` exactly when the engine initialization call
returns the null context pointer, and any handle it does return owns a
non-null engine pointer — it never wraps a failed (null) engine instance. -/
theorem new_fb_spec (fb w h p rms rsh gms gsh bms bsh initResult : Nat) :
    (FlantermContext.new_fb fb w h p rms rsh gms gsh bms bsh initResult
        = none ↔ initResult = 0) ∧
    (∀ hd : FlantermContext,
      FlantermContext.new_fb fb w h p rms rsh gms gsh bms bsh initResult
        = some hd → hd.ctx ≠ 0) := by
  constructor
  · by_cases h0 : initResult = 0 <;>
      simp [FlantermContext.new_fb, h0]
  · intro hd hsome
    by_cases h0 : initResult = 0
    · simp [FlantermContext.new_fb, h0] at hsome
    · simp [FlantermContext.new_fb, h0] at hsome
      rw [← hsome]
      exact h0

theorem new_fb_spec_witness :
    (FlantermContext.new_fb 0 0 0 0 0 0 0 0 0 0 0 = none) ∧
    (FlantermContext.new_fb 0 0 0 0 0 0 0 0 0 0 5 = some ⟨5⟩) ∧
    (FlantermContext.ctx ⟨5⟩ ≠ 0) :=
  ⟨(new_fb_spec 0 0 0 0 0 0 0 0 0 0 0).1.mpr rfl, rfl,
   (new_fb_spec 0 0 0 0 0 0 0 0 0 0 5).2 ⟨5⟩ rfl⟩

/-- C8: dropping a `FlantermContext` performs no engine call at all when its
pointer is null (a handle that never successfully acquired an engine
instance), performs exactly one `flanterm_deinit` call on the owned pointer
when it is non-null, and in every case performs at most one teardown call;
Rust runs `Drop` at most once per value, so no handle tears its engine
instance down twice. -/
theorem drop_spec (c : FlantermContext) :
    (c.ctx = 0 → c.drop = []) ∧
    (c.ctx ≠ 0 → c.drop = [EngineCall.deinit c.ctx]) ∧
    countDeinits c.drop ≤ 1 := by
  refine ⟨fun h0 => ?_, fun h0 => ?_, ?_⟩
  · simp [FlantermContext.drop, h0]
  · simp [FlantermContext.drop, h0]
  · by_cases h0 : c.ctx = 0 <;>
      simp [FlantermContext.drop, h0, countDeinits]

theorem drop_spec_witness :
    (FlantermContext.drop ⟨0⟩ = []) ∧
    (FlantermContext.drop ⟨3⟩ = [EngineCall.deinit 3]) :=
  ⟨(drop_spec ⟨0⟩).1 rfl, (drop_spec ⟨3⟩).2.1 (by decide)⟩

/-- C9: the print path can never fail or panic: `write_str` always returns
`Ok`, so `write_fmt` always returns `Ok` (any formatting failure would be
swallowed there and is never produced), the `unwrap` calls in `clear` and
`reset_format` never panic, and `_print` (a total function in this model)
always returns normally with its `fmt::Result` discarded. -/
theorem print_path_never_fails (c : FlantermContext) (s : String)
    (args : FmtArguments) :
    (c.write_str s).2 = FmtResult.ok ∧
    (c.write_fmt args).2 = FmtResult.ok ∧
    (c.clear).2 = false ∧
    (c.reset_format).2 = false := by
  refine ⟨rfl, ?_, rfl, rfl⟩
  rw [write_fmt_eq]

theorem countDeinits_print (args : FmtArguments) (s : GlobalFlantermState) :
    countDeinits (_print args s).2 = 0 := by
  cases s with
  | mk sctx sinit =>
    cases sinit with
    | false => rfl
    | true =>
      cases sctx with
      | none => rfl
      | some c =>
        simp [_print, with_global_flanterm, write_fmt_eq,
          countDeinits_writeList]

theorem surface_run_no_deinit (ops : List GlobalOp) (s : GlobalFlantermState)
    (h : ∀ op ∈ ops, op.noClosure) :
    countDeinits (runTrace ops s).2 = 0 := by
  induction ops generalizing s with
  | nil => rfl
  | cons op rest ih =>
    have hop : op.noClosure := h op (List.mem_cons_self op rest)
    have hrest : ∀ o ∈ rest, o.noClosure :=
      fun o ho => h o (List.mem_cons_of_mem op ho)
    have hstep : countDeinits (stepTrace op s).2 = 0 := by
      cases op with
      | install c => rfl
      | withInstance g => exact absurd hop (by simp [GlobalOp.noClosure])
      | doPrint args => exact countDeinits_print args s
    simp only [runTrace]
    simp [countDeinits_append, hstep, ih (stepTrace op s).1 hrest]

/-- C10: installing a second handle over an already installed registry goes
through `MaybeUninit::write`, which replaces the stored handle without
running `Drop` on the old one: the install step yields the registry holding
the new handle and performs no engine call whatsoever (in particular no
`flanterm_deinit`), and no later sequence of install or print operations
ever performs a `flanterm_deinit` either — so the previously owned engine
instance is silently leaked, never deinitialized. -/
theorem install_overwrites_without_drop (s : GlobalFlantermState)
    (c1 c2 : FlantermContext) (_hprev : s.initialized = true ∧ s.ctx = some c1) :
    stepTrace (GlobalOp.install c2) s =
      ({ ctx := some c2, initialized := true }, []) ∧
    (∀ ops : List GlobalOp, (∀ op ∈ ops, op.noClosure) →
      countDeinits (runTrace (GlobalOp.install c2 :: ops) s).2 = 0) := by
  refine ⟨rfl, fun ops h => ?_⟩
  refine surface_run_no_deinit (GlobalOp.install c2 :: ops) s ?_
  intro op hop
  rcases List.mem_cons.mp hop with heq | hmem
  · subst heq
    trivial
  · exact h op hmem

theorem install_overwrites_without_drop_witness :
    stepTrace (GlobalOp.install ⟨7⟩) { ctx := some ⟨3⟩, initialized := true } =
      ({ ctx := some (⟨7⟩ : FlantermContext), initialized := true }, []) ∧
    countDeinits (runTrace [GlobalOp.install ⟨7⟩, GlobalOp.doPrint ["hi"]]
      { ctx := some ⟨3⟩, initialized := true }).2 = 0 :=
  ⟨(install_overwrites_without_drop { ctx := some ⟨3⟩, initialized := true }
      ⟨3⟩ ⟨7⟩ ⟨rfl, rfl⟩).1,
   (install_overwrites_without_drop { ctx := some ⟨3⟩, initialized := true }
      ⟨3⟩ ⟨7⟩ ⟨rfl, rfl⟩).2 [GlobalOp.doPrint ["hi"]]
      (by
        intro op hop
        rw [List.mem_singleton] at hop
        subst hop
        trivial)⟩
